import Mathlib

/-!
Shallow embedding of the swindon chat message codec
(`src/chat/message.rs`) and proofs about it.

The codec decodes an inbound websocket frame
`[method, meta, args, kwargs]` (a JSON document), validates the method
name and the `request_id` metadata entry, extracts an optional
keep-alive hint from metadata (`get_active`), and encodes outbound call
frames, merging a `connection_id` entry over caller metadata
(`MetaWithExtra`, `Call`).

Modelling conventions:
  * JSON values are the inductive `Json`; numbers follow serde_json's
    three-way representation (`N::PosInt(u64)`, `N::NegInt(i64)`,
    `N::Float(f64)` — the float case is modelled as an exact decimal
    mantissa/exponent pair, which is enough because the codec only ever
    inspects the tag of a float).
  * serde_json's `Map` is modelled as an insertion-ordered association
    list with unique keys (last write wins); the order-preserving
    behaviour follows the spec's Value Model (swindon builds serde_json
    with the order-preserving map; the crate manifest is not part of
    the sources, only the map's uses are).
  * `decode_message` is two-phase: a total JSON text parser producing a
    `Json` value, then a structural decode that mirrors serde's
    streaming order for the derived `Request(String, Meta, Args,
    Kwargs)` tuple struct: elements are checked left to right, a
    missing element reports the count read so far (serde's
    "invalid length n"), a fifth element after four well-typed ones
    reports trailing characters, and a mistyped element reports its
    position — so a type error on an early element preempts any arity
    report, exactly as in the repository's own tests.
-/

namespace Swindon

/-- A JSON number, mirroring serde_json's internal representation:
`uint` is `N::PosInt` (a `u64`), `int` is `N::NegInt` (a negative
`i64`), and `float` is `N::Float`, kept as an exact decimal
`m * 10 ^ e` since the codec never does float arithmetic. -/
inductive JNum where
  | uint (n : Nat)
  | int (i : Int)
  | float (m : Int) (e : Int)
deriving DecidableEq, Repr

/-- A JSON value (serde_json's `Value`). Objects are insertion-ordered
association lists, per the spec's Value Model. -/
inductive Json where
  | null
  | bool (b : Bool)
  | num (n : JNum)
  | str (s : String)
  | arr (items : List Json)
  | obj (members : List (String × Json))

/-- Per-request metadata map (`type Meta = Map<String, Json>`). -/
abbrev Meta := List (String × Json)

/-- Positional arguments (`type Args = Vec<Json>`). -/
abbrev Args := List Json

/-- Named arguments (`type Kwargs = Map<String, Json>`). -/
abbrev Kwargs := List (String × Json)

/-- `Map::get`: the value stored for a key, if any. Keys are unique, so
first match suffices. -/
def mapGet (m : List (String × Json)) (k : String) : Option Json :=
  match m with
  | [] => none
  | (k', v) :: rest => if k' = k then some v else mapGet rest k

/-- `Map::insert`: replace in place when the key exists (keeping its
position), append otherwise — the order-preserving map's insert. -/
def mapInsert (m : List (String × Json)) (k : String) (v : Json) :
    List (String × Json) :=
  match m with
  | [] => [(k, v)]
  | (k', v') :: rest =>
      if k' = k then (k', v) :: rest else (k', v') :: mapInsert rest k v

/-- `serde_json::Number::as_u64`: only the `PosInt` representation
yields a value. The range guard encodes that `PosInt` holds a `u64`;
the parser below never builds a `uint` out of range. -/
def JNum.as_u64 : JNum → Option Nat
  | .uint n => if n < 2 ^ 64 then some n else none
  | _ => none

/-- `Value::as_u64` on a JSON value: numbers defer to the number
representation, everything else is `None`. -/
def Json.as_u64 : Json → Option Nat
  | .num n => n.as_u64
  | _ => none

/-- `get_active` (src/chat/message.rs:32):
`meta.get("active").and_then(|v| v.as_u64())`. -/
def get_active (meta : Meta) : Option Nat :=
  (mapGet meta "active").bind Json.as_u64

/-- The error kinds `decode_message` can report. `parseError` covers
malformed JSON text (serde's syntax errors); `invalidTop` a well-formed
document that is not an array ("invalid type: ..., expected tuple
struct Request"); `invalidLength got` a top-level array that ends after
`got < 4` elements ("invalid length got, expected tuple struct Request
with 4 elements"); `invalidElem pos expected` a wrongly-typed element
at position `pos`; `trailingChars` a fifth element after four
well-typed ones; `invalidMethod` / `invalidRequestId` the two
validation failures raised via `Error::custom`. -/
inductive DecodeError where
  | parseError
  | invalidTop
  | invalidLength (got : Nat)
  | invalidElem (pos : Nat) (expected : String)
  | trailingChars
  | invalidMethod
  | invalidRequestId
deriving DecidableEq, Repr

/-- The per-character test of `Request::validate`
(src/chat/message.rs:108): `c.is_ascii() && (c.is_alphanumeric() ||
c == '-' || c == '_' || c == '.')`. Restricted to ASCII, Rust's
Unicode `is_alphanumeric` coincides with `Char.isAlphanum`. -/
def is_method_char (c : Char) : Bool :=
  c.toNat < 128 && (c.isAlphanum || c = '-' || c = '_' || c = '.')

/-- Rust `str::starts_with` on a literal: byte-level prefix, which for
whole-character needles equals character-level prefix (UTF-8 is a
prefix code). -/
def starts_with (s p : String) : Bool :=
  p.data.isPrefixOf s.data

/-- `Request::validate` (src/chat/message.rs:100): the method must be
non-empty, not begin with `tangle.`, and use only `[A-Za-z0-9._-]`;
then `meta["request_id"]` must be a Number or a non-empty String.
Checks run in exactly this order and the first failure is reported. -/
def validate (method : String) (meta : Meta) : Except DecodeError Unit :=
  if method.length = 0 then .error .invalidMethod
  else if starts_with method "tangle." then .error .invalidMethod
  else if ¬ (method.data.all is_method_char) then .error .invalidMethod
  else
    match mapGet meta "request_id" with
    | some (.num _) => .ok ()
    | some (.str s) => if s.length > 0 then .ok () else .error .invalidRequestId
    | _ => .error .invalidRequestId

/-- Structural decode of `#[derive(Deserialize)] struct
Request(String, Meta, Args, Kwargs)` from a parsed document, mirroring
serde's streaming order: the document must be an array; elements are
taken left to right with required kinds String, Map, Sequence, Map; a
missing element reports the count read so far; an element after the
fourth reports trailing characters. A wrongly-typed early element
therefore preempts any later report, as in the repository's tests. -/
def decodeRequest (j : Json) : Except DecodeError (String × Meta × Args × Kwargs) :=
  match j with
  | .arr [] => .error (.invalidLength 0)
  | .arr (x0 :: rest0) =>
    match x0 with
    | .str method =>
      match rest0 with
      | [] => .error (.invalidLength 1)
      | x1 :: rest1 =>
        match x1 with
        | .obj meta =>
          match rest1 with
          | [] => .error (.invalidLength 2)
          | x2 :: rest2 =>
            match x2 with
            | .arr args =>
              match rest2 with
              | [] => .error (.invalidLength 3)
              | x3 :: rest3 =>
                match x3 with
                | .obj kwargs =>
                  match rest3 with
                  | [] => .ok (method, meta, args, kwargs)
                  | _ :: _ => .error .trailingChars
                | _ => .error (.invalidElem 3 "a map")
            | _ => .error (.invalidElem 2 "a sequence")
        | _ => .error (.invalidElem 1 "a map")
    | _ => .error (.invalidElem 0 "a string")
  | _ => .error .invalidTop

/-- `decode_message` after parsing (src/chat/message.rs:19): structural
decode, then `validate`, and on success the tuple
`(method, meta, args, kwargs)` is returned unchanged. -/
def decode_value (j : Json) : Except DecodeError (String × Meta × Args × Kwargs) :=
  match decodeRequest j with
  | .error e => .error e
  | .ok (method, meta, args, kwargs) =>
    match validate method meta with
    | .error e => .error e
    | .ok _ => .ok (method, meta, args, kwargs)

/-- `MetaWithExtra::serialize` (src/chat/message.rs:82): when `extra`
is an object, emit its entries, then the `meta` entries whose key
`extra` does not contain (`extra.iter().chain(meta.iter().filter(...))`);
otherwise emit `meta` unchanged. -/
def meta_with_extra (meta : Meta) (extra : Json) : List (String × Json) :=
  match extra with
  | .obj e => e ++ meta.filter (fun kv => (mapGet e kv.1).isNone)
  | _ => meta

/-- `Call::serialize` (src/chat/message.rs:63): the outbound call frame
`[ merged_meta, args, kwargs ]` with
`extra = json!({"connection_id": cid})`. -/
def encode_call (meta : Meta) (cid : String) (args : Args) (kwargs : Kwargs) : Json :=
  .arr [ .obj (meta_with_extra meta (.obj [("connection_id", .str cid)])),
         .arr args,
         .obj kwargs ]

/-- Forwarded connection credentials (`struct AuthData`). -/
structure AuthData where
  http_cookie : Option String
  http_authorization : Option String
  url_querystring : String

/-- `AuthData`'s serialization: the three fields in declared order,
absent optionals as null. -/
def AuthData.toJson (d : AuthData) : Json :=
  .obj [ ("http_cookie", match d.http_cookie with
                         | some s => .str s
                         | none => .null),
         ("http_authorization", match d.http_authorization with
                                | some s => .str s
                                | none => .null),
         ("url_querystring", .str d.url_querystring) ]

/-- `Auth::serialize` (src/chat/message.rs:49): the outbound auth frame
`[ {"connection_id": cid}, [], auth_data ]`. -/
def encode_auth (cid : String) (d : AuthData) : Json :=
  .arr [ .obj [("connection_id", .str cid)], .arr [], d.toJson ]

/-! ### JSON text parsing

`decode_message` takes raw text; serde_json parses it while
deserializing. The parser below accepts exactly the RFC 8259 grammar
as serde_json does: no leading zeros, strings with the standard escape
set including surrogate pairs, no unescaped control characters, and
integer literals classified as `u64` / negative `i64` / float
fallback. Recursion is on an explicit fuel, so every function is
total; the fuel passed at top level is large enough for any input
(each recursive call consumes input). -/

/-- The opening curly brace (written via its code point: see the note
on braces below `rbraceCh`). -/
def lbraceCh : Char := Char.ofNat 123

/-- The closing curly brace. Both braces are referred to through these
constants rather than as literals throughout this file. -/
def rbraceCh : Char := Char.ofNat 125

/-- JSON insignificant whitespace: space, tab, line feed, carriage
return. -/
def json_ws (c : Char) : Bool :=
  c = ' ' || c = Char.ofNat 9 || c = Char.ofNat 10 || c = Char.ofNat 13

/-- Drop leading JSON whitespace. -/
def dropWs : List Char → List Char
  | [] => []
  | c :: cs => if json_ws c then dropWs cs else c :: cs

/-- Split a leading run of decimal digits off the input. -/
def grabDigits : List Char → List Char × List Char
  | [] => ([], [])
  | c :: cs =>
    if c.isDigit then
      let p := grabDigits cs
      (c :: p.1, p.2)
    else ([], c :: cs)

/-- The natural number denoted by a digit run. -/
def digitsVal (ds : List Char) : Nat :=
  ds.foldl (fun a c => a * 10 + (c.toNat - 48)) 0

/-- Classify an integer literal the way serde_json does: non-negative
values that fit a `u64` become `PosInt`, negative values that fit an
`i64` become `NegInt` (`-0` normalizes to `PosInt 0`), anything wider
falls back to the float representation. -/
def mkIntNum (neg : Bool) (n : Nat) : JNum :=
  if neg then
    if n = 0 then .uint 0
    else if n ≤ 2 ^ 63 then .int (-(n : Int))
    else .float (-(n : Int)) 0
  else if n < 2 ^ 64 then .uint n
  else .float (n : Int) 0

/-- Parse an exponent part (after the `e`/`E`): optional sign, then at
least one digit. -/
def parseExpPart (cs : List Char) : Option (Int × List Char) :=
  let sp : Bool × List Char :=
    match cs with
    | '+' :: t => (false, t)
    | '-' :: t => (true, t)
    | _ => (false, cs)
  match grabDigits sp.2 with
  | ([], _) => none
  | (ds, rest) =>
    let v : Int := digitsVal ds
    some (if sp.1 then -v else v, rest)

/-- Parse a JSON number starting at the first character (`-` or a
digit). Integer literals without fraction or exponent go through
`mkIntNum`; any fraction or exponent produces the float
representation, as serde_json parses those into an `f64`. -/
def parseNum (cs : List Char) : Option (JNum × List Char) :=
  let sp : Bool × List Char :=
    match cs with
    | '-' :: t => (true, t)
    | _ => (false, cs)
  let sgn : Int := if sp.1 then -1 else 1
  match grabDigits sp.2 with
  | ([], _) => none
  | (ids, cs2) =>
    match ids with
    | '0' :: _ :: _ => none
    | _ =>
      match cs2 with
      | '.' :: cs3 =>
        match grabDigits cs3 with
        | ([], _) => none
        | (fds, cs4) =>
          let mant : Int := sgn * (digitsVal (ids ++ fds) : Int)
          match cs4 with
          | 'e' :: cs5 =>
            (parseExpPart cs5).map
              (fun p => (JNum.float mant (p.1 - (fds.length : Int)), p.2))
          | 'E' :: cs5 =>
            (parseExpPart cs5).map
              (fun p => (JNum.float mant (p.1 - (fds.length : Int)), p.2))
          | _ => some (.float mant (-(fds.length : Int)), cs4)
      | 'e' :: cs3 =>
        (parseExpPart cs3).map
          (fun p => (JNum.float (sgn * (digitsVal ids : Int)) p.1, p.2))
      | 'E' :: cs3 =>
        (parseExpPart cs3).map
          (fun p => (JNum.float (sgn * (digitsVal ids : Int)) p.1, p.2))
      | _ => some (mkIntNum sp.1 (digitsVal ids), cs2)

/-- Resolve a single-character escape (`\"`, `\\`, `\/`, `\b`, `\f`,
`\n`, `\r`, `\t`). -/
def escChar (c : Char) : Option Char :=
  if c = '"' then some '"'
  else if c = '\\' then some '\\'
  else if c = '/' then some '/'
  else if c = 'b' then some (Char.ofNat 8)
  else if c = 'f' then some (Char.ofNat 12)
  else if c = 'n' then some (Char.ofNat 10)
  else if c = 'r' then some (Char.ofNat 13)
  else if c = 't' then some (Char.ofNat 9)
  else none

/-- The value of one hexadecimal digit. -/
def hexDigit (c : Char) : Option Nat :=
  if c.isDigit then some (c.toNat - 48)
  else if 'a' ≤ c ∧ c ≤ 'f' then some (c.toNat - 87)
  else if 'A' ≤ c ∧ c ≤ 'F' then some (c.toNat - 55)
  else none

/-- Read four hexadecimal digits. -/
def hexQuad : List Char → Option (Nat × List Char)
  | a :: b :: c :: d :: rest => do
    let va ← hexDigit a
    let vb ← hexDigit b
    let vc ← hexDigit c
    let vd ← hexDigit d
    some (((va * 16 + vb) * 16 + vc) * 16 + vd, rest)
  | _ => none

/-- Parse a string body after the opening quote, accumulating decoded
characters in reverse. Unescaped control characters are rejected, and
`\u` escapes in the surrogate ranges must form a proper high/low pair,
as in serde_json. -/
def strBody : Nat → List Char → List Char → Option (String × List Char)
  | 0, _, _ => none
  | fuel + 1, acc, cs =>
    match cs with
    | [] => none
    | c :: rest =>
      if c = '"' then some (String.mk acc.reverse, rest)
      else if c = '\\' then
        match rest with
        | [] => none
        | e :: rest2 =>
          if e = 'u' then
            match hexQuad rest2 with
            | none => none
            | some (h, rest3) =>
              if h < 0xD800 ∨ 0xE000 ≤ h then
                strBody fuel (Char.ofNat h :: acc) rest3
              else if h < 0xDC00 then
                match rest3 with
                | '\\' :: 'u' :: rest4 =>
                  match hexQuad rest4 with
                  | some (l, rest5) =>
                    if 0xDC00 ≤ l ∧ l < 0xE000 then
                      strBody fuel
                        (Char.ofNat (0x10000 + (h - 0xD800) * 0x400 + (l - 0xDC00)) :: acc)
                        rest5
                    else none
                  | none => none
                | _ => none
              else none
          else
            match escChar e with
            | some ch => strBody fuel (ch :: acc) rest2
            | none => none
      else if c.toNat < 32 then none
      else strBody fuel (c :: acc) rest

mutual

/-- Parse one JSON value. The leading dispatch character is examined
after dropping whitespace. -/
def parseVal : Nat → List Char → Option (Json × List Char)
  | 0, _ => none
  | fuel + 1, cs =>
    match dropWs cs with
    | [] => none
    | c :: rest =>
      if c = 'n' then
        match rest with
        | 'u' :: 'l' :: 'l' :: r => some (.null, r)
        | _ => none
      else if c = 't' then
        match rest with
        | 'r' :: 'u' :: 'e' :: r => some (.bool true, r)
        | _ => none
      else if c = 'f' then
        match rest with
        | 'a' :: 'l' :: 's' :: 'e' :: r => some (.bool false, r)
        | _ => none
      else if c = '"' then
        (strBody (rest.length + 1) [] rest).map (fun p => (Json.str p.1, p.2))
      else if c = '[' then
        match dropWs rest with
        | ']' :: r => some (.arr [], r)
        | _ => (parseItems fuel rest).map (fun p => (Json.arr p.1, p.2))
      else if c = lbraceCh then
        match dropWs rest with
        | [] => none
        | c2 :: r2 =>
          if c2 = rbraceCh then some (.obj [], r2)
          else
            (parseFields fuel rest).map
              (fun p =>
                (Json.obj (p.1.foldl (fun m kv => mapInsert m kv.1 kv.2) []), p.2))
      else if c = '-' ∨ c.isDigit then
        (parseNum (c :: rest)).map (fun p => (Json.num p.1, p.2))
      else none

/-- Parse the comma-separated items of a non-empty array, consuming the
closing bracket. -/
def parseItems : Nat → List Char → Option (List Json × List Char)
  | 0, _ => none
  | fuel + 1, cs =>
    match parseVal fuel cs with
    | none => none
    | some (v, r) =>
      match dropWs r with
      | [] => none
      | c :: r2 =>
        if c = ',' then
          match parseItems fuel r2 with
          | some (vs, r3) => some (v :: vs, r3)
          | none => none
        else if c = ']' then some ([v], r2)
        else none

/-- Parse the comma-separated members of a non-empty object, consuming
the closing brace. Members are returned in source order; the caller
folds them through `mapInsert`, so a duplicate key keeps its first
position with the last value, as the order-preserving map does. -/
def parseFields : Nat → List Char → Option (List (String × Json) × List Char)
  | 0, _ => none
  | fuel + 1, cs =>
    match dropWs cs with
    | [] => none
    | c :: rest =>
      if c = '"' then
        match strBody (rest.length + 1) [] rest with
        | none => none
        | some (k, r) =>
          match dropWs r with
          | ':' :: r2 =>
            match parseVal fuel r2 with
            | none => none
            | some (v, r3) =>
              match dropWs r3 with
              | [] => none
              | c3 :: r4 =>
                if c3 = ',' then
                  match parseFields fuel r4 with
                  | some (kvs, r5) => some ((k, v) :: kvs, r5)
                  | none => none
                else if c3 = rbraceCh then some ([(k, v)], r4)
                else none
          | _ => none
      else none

end

/-- Parse a complete JSON document: one value, then only whitespace to
the end of input, as serde_json's `from_str` requires. The fuel
`2 * length + 2` covers any input, since every recursive call consumes
at least one character. -/
def parseJson (s : String) : Option Json :=
  match parseVal (2 * s.length + 2) s.data with
  | some (j, rest) => if dropWs rest = [] then some j else none
  | none => none

/-- `decode_message` (src/chat/message.rs:19): parse the text, decode
the `Request` tuple, validate, and return the tuple. All of serde's
syntax-level failures (including trailing garbage after the document)
are reported here as `parseError`. -/
def decode_message (s : String) : Except DecodeError (String × Meta × Args × Kwargs) :=
  match parseJson s with
  | none => .error .parseError
  | some j => decode_value j

/-! ### Spec-side predicates

These state the spec's conditions in its own vocabulary (the character
class `[A-Za-z0-9._-]` over code points, "key occurs in", "non-empty
string"), independently of the code's helpers, so the theorems below
relate the two. -/

/-- The spec's character class `[A-Za-z0-9._-]`, stated over code
points: upper-case letters 65–90, lower-case 97–122, digits 48–57, and
the three punctuation marks `.` (46), `_` (95), `-` (45). -/
def method_char_class (n : Nat) : Bool :=
  (65 ≤ n && n ≤ 90) || (97 ≤ n && n ≤ 122) || (48 ≤ n && n ≤ 57) ||
  n = 46 || n = 95 || n = 45

/-- The spec's method grammar: matches `^[A-Za-z0-9._-]+$` and does
not begin with, the reserved namespace marker `tangle.`. -/
def method_ok (m : String) : Bool :=
  !m.data.isEmpty && (m.data.all fun c => method_char_class c.toNat) &&
    !starts_with m "tangle."

/-- The spec's three method failures, as one disjunction: empty, or
reserved namespace, or a character outside the class. -/
def bad_method (m : String) : Bool :=
  m.data.isEmpty || starts_with m "tangle." ||
    !(m.data.all fun c => method_char_class c.toNat)

/-- The spec's correlation-identifier requirement: `meta["request_id"]`
is present and is a Number or a non-empty String. -/
def request_id_ok (meta : Meta) : Bool :=
  match mapGet meta "request_id" with
  | some (.num _) => true
  | some (.str s) => !s.data.isEmpty
  | _ => false

/-- Does a map carry an entry for this key? (Spec-side "the key occurs
in extra".) -/
def hasKey (m : List (String × Json)) (k : String) : Bool :=
  match m with
  | [] => false
  | (k', _) :: rest => if k' = k then true else hasKey rest k

/-- Is this value an object? (The map-shaped test of the Metadata
Merger's defensive case.) -/
def Json.isObj : Json → Bool
  | .obj _ => true
  | _ => false

/-! ### Helper lemmas -/

theorem le65 (c : Char) : ((65 : UInt32) ≤ c.val) ↔ 65 ≤ c.toNat := Iff.rfl

theorem le90 (c : Char) : (c.val ≤ (90 : UInt32)) ↔ c.toNat ≤ 90 := Iff.rfl

theorem le97 (c : Char) : ((97 : UInt32) ≤ c.val) ↔ 97 ≤ c.toNat := Iff.rfl

theorem le122 (c : Char) : (c.val ≤ (122 : UInt32)) ↔ c.toNat ≤ 122 := Iff.rfl

theorem le48 (c : Char) : ((48 : UInt32) ≤ c.val) ↔ 48 ≤ c.toNat := Iff.rfl

theorem le57 (c : Char) : (c.val ≤ (57 : UInt32)) ↔ c.toNat ≤ 57 := Iff.rfl

theorem eqDash (c : Char) : (c = '-') ↔ c.toNat = 45 := by
  rw [Char.ext_iff, UInt32.ext_iff]
  exact Iff.rfl

theorem eqUnd (c : Char) : (c = '_') ↔ c.toNat = 95 := by
  rw [Char.ext_iff, UInt32.ext_iff]
  exact Iff.rfl

theorem eqDot (c : Char) : (c = '.') ↔ c.toNat = 46 := by
  rw [Char.ext_iff, UInt32.ext_iff]
  exact Iff.rfl

/-- The code's per-character check is exactly the spec's character
class at the character's code point. -/
theorem is_method_char_eq (c : Char) :
    is_method_char c = method_char_class c.toNat := by
  rw [Bool.eq_iff_iff]
  simp only [is_method_char, method_char_class, Char.isAlphanum, Char.isAlpha,
    Char.isDigit, Char.isUpper, Char.isLower, ge_iff_le, Bool.or_eq_true,
    Bool.and_eq_true, decide_eq_true_eq, le65, le90, le97, le122, le48, le57,
    eqDash, eqUnd, eqDot]
  omega

theorem str_length (m : String) : m.length = m.data.length := rfl

theorem length_zero_iff (m : String) : (m.length = 0) ↔ m.data.isEmpty = true := by
  rw [str_length]
  cases m.data <;> simp

theorem length_pos_iff (s : String) : (s.length > 0) ↔ (!s.data.isEmpty) = true := by
  rw [str_length]
  cases s.data <;> simp

theorem all_chars_eq (l : List Char) :
    l.all is_method_char = l.all (fun c => method_char_class c.toNat) := by
  induction l with
  | nil => rfl
  | cons c cs ih => simp only [List.all_cons, is_method_char_eq, ih]

/-- Spec-side restatement of the validator: one test per spec rule, in
the spec's order. -/
def validate_spec (m : String) (meta : Meta) : Except DecodeError Unit :=
  if bad_method m then .error .invalidMethod
  else if request_id_ok meta then .ok () else .error .invalidRequestId

/-- The code's validator refines the spec's: same result on every
input. -/
theorem validate_eq_spec (m : String) (meta : Meta) :
    validate m meta = validate_spec m meta := by
  unfold validate validate_spec
  by_cases h1 : m.length = 0
  · have hb : bad_method m = true := by
      unfold bad_method
      rw [(length_zero_iff m).mp h1]
      simp
    rw [if_pos h1, if_pos (by rw [hb])]
  · rw [if_neg h1]
    by_cases h2 : starts_with m "tangle." = true
    · have hb : bad_method m = true := by
        unfold bad_method
        rw [h2]
        simp
      rw [if_pos h2, if_pos (by rw [hb])]
    · rw [if_neg h2]
      by_cases h3 : m.data.all is_method_char = true
      · have he : m.data.isEmpty = false := by
          rcases h : m.data.isEmpty with _ | _
          · rfl
          · exact absurd ((length_zero_iff m).mpr h) h1
        have hs2 : starts_with m "tangle." = false := by
          rcases h : starts_with m "tangle." with _ | _
          · rfl
          · exact absurd h h2
        have hb : bad_method m = false := by
          unfold bad_method
          rw [← all_chars_eq, he, hs2, h3]
          rfl
        rw [if_neg (by rw [h3]; exact fun h => h rfl),
            if_neg (by rw [hb]; exact Bool.false_ne_true)]
        rcases hq : mapGet meta "request_id" with _ | j
        · simp only [hq]
          have hr : request_id_ok meta = false := by
            simp only [request_id_ok, hq]
          rw [hr, if_neg Bool.false_ne_true]
        · rcases j with _ | b | n | s | xs | ms
          · simp only [hq]
            have hr : request_id_ok meta = false := by
              simp only [request_id_ok, hq]
            rw [hr, if_neg Bool.false_ne_true]
          · simp only [hq]
            have hr : request_id_ok meta = false := by
              simp only [request_id_ok, hq]
            rw [hr, if_neg Bool.false_ne_true]
          · simp only [hq]
            have hr : request_id_ok meta = true := by
              simp only [request_id_ok, hq]
            rw [hr, if_pos rfl]
          · simp only [hq]
            have hr : request_id_ok meta = !s.data.isEmpty := by
              simp only [request_id_ok, hq]
            rw [hr]
            by_cases hs : s.length > 0
            · rw [if_pos hs, if_pos ((length_pos_iff s).mp hs)]
            · rw [if_neg hs, if_neg (fun h => hs ((length_pos_iff s).mpr h))]
          · simp only [hq]
            have hr : request_id_ok meta = false := by
              simp only [request_id_ok, hq]
            rw [hr, if_neg Bool.false_ne_true]
          · simp only [hq]
            have hr : request_id_ok meta = false := by
              simp only [request_id_ok, hq]
            rw [hr, if_neg Bool.false_ne_true]
      · have ha : m.data.all is_method_char = false := by
          rcases h : m.data.all is_method_char with _ | _
          · rfl
          · exact absurd h h3
        have hb : bad_method m = true := by
          unfold bad_method
          rw [← all_chars_eq, ha]
          simp
        rw [if_pos (by rw [ha]; exact Bool.false_ne_true),
            if_pos (by rw [hb])]

/-- The spec's method predicate is the negation of the spec's failure
disjunction. -/
theorem method_ok_iff (m : String) : method_ok m = !bad_method m := by
  unfold method_ok bad_method
  cases h1 : m.data.isEmpty <;> cases h2 : starts_with m "tangle." <;>
    cases h3 : m.data.all (fun c => method_char_class c.toNat) <;> rfl

/-- On a structurally well-formed frame, decoding reduces to the
validator's verdict. -/
theorem decode_value_frame (m : String) (meta : Meta) (args : Args) (kwargs : Kwargs) :
    decode_value (.arr [.str m, .obj meta, .arr args, .obj kwargs]) =
      match validate m meta with
      | .error e => .error e
      | .ok _ => .ok (m, meta, args, kwargs) := rfl

/-- A well-formed frame with a valid method and request id decodes to
exactly its components. -/
theorem frame_decode_ok (m : String) (meta : Meta) (args : Args) (kwargs : Kwargs)
    (hm : method_ok m = true) (hr : request_id_ok meta = true) :
    decode_value (.arr [.str m, .obj meta, .arr args, .obj kwargs]) =
      .ok (m, meta, args, kwargs) := by
  have hb : bad_method m = false := by
    rw [method_ok_iff] at hm
    rcases h : bad_method m with _ | _
    · rfl
    · rw [h] at hm; exact absurd hm (by simp)
  rw [decode_value_frame, validate_eq_spec]
  unfold validate_spec
  rw [if_neg (by rw [hb]; exact Bool.false_ne_true), if_pos (by rw [hr])]

/-- The structural decoder's length report is always the count of
elements read before the array ended, which is under 4. -/
theorem decodeRequest_invalidLength (j : Json) (n : Nat)
    (h : decodeRequest j = .error (.invalidLength n)) : n < 4 := by
  unfold decodeRequest at h
  repeat' split at h
  all_goals
    first
    | (exact Except.noConfusion h)
    | (injection h with h'; (try cases h'); (try omega))

/-- The validator reports only the two validation kinds. -/
theorem validate_no_invalidLength (m : String) (meta : Meta) (e : DecodeError)
    (h : validate m meta = .error e) :
    e = .invalidMethod ∨ e = .invalidRequestId := by
  rw [validate_eq_spec] at h
  unfold validate_spec at h
  split_ifs at h <;> simp_all

theorem decode_value_invalidLength (j : Json) (n : Nat)
    (h : decode_value j = .error (.invalidLength n)) : n < 4 := by
  unfold decode_value at h
  split at h
  · rename_i e heq
    injection h with h'
    exact decodeRequest_invalidLength j n (by rw [heq, h'])
  · rename_i tup heq
    split at h
    · rename_i e heq2
      injection h with h'
      rcases validate_no_invalidLength _ _ e heq2 with h2 | h2 <;> simp_all
    · exact absurd h (by simp)

theorem decode_message_invalidLength (s : String) (n : Nat)
    (h : decode_message s = .error (.invalidLength n)) : n < 4 := by
  unfold decode_message at h
  split at h
  · injection h with h'
    cases h'
  · exact decode_value_invalidLength _ n h

/-- Key lookup fails exactly when the map has no entry for the key. -/
theorem mapGet_isNone_eq (e : List (String × Json)) (k : String) :
    (mapGet e k).isNone = !hasKey e k := by
  induction e with
  | nil => rfl
  | cons kv rest ih =>
    rcases kv with ⟨k', v⟩
    unfold mapGet hasKey
    by_cases h : k' = k
    · rw [if_pos h, if_pos h]
      rfl
    · rw [if_neg h, if_neg h]
      exact ih

/-- Inserting under a key every filtered entry is dropped for leaves
the filtered entries unchanged, whether the insert replaced in place
or appended. -/
theorem filter_mapInsert (meta : Meta) (k : String) (v : Json)
    (p : String × Json → Bool) (hp : ∀ w, p (k, w) = false) :
    (mapInsert meta k v).filter p = meta.filter p := by
  induction meta with
  | nil => simp [mapInsert, hp]
  | cons kv rest ih =>
    rcases kv with ⟨k', v'⟩
    unfold mapInsert
    by_cases h : k' = k
    · subst h
      rw [if_pos rfl]
      simp [List.filter_cons, hp]
    · rw [if_neg h]
      simp only [List.filter_cons, ih]

/-! ### The claims -/

/-- Claim C1: for every method matching `^[A-Za-z0-9._-]+$` that does
not start with `tangle.`, every meta whose `request_id` is a Number or
a non-empty String, and arbitrary args and kwargs, decoding any text
that is a serialization of the 4-element frame
`[method, meta, args, kwargs]` (i.e. any text parsing to that frame)
succeeds and returns exactly the tuple
`(method, meta, args, kwargs)`. -/
theorem decode_roundtrip_valid_frame (s : String) (m : String) (meta : Meta)
    (args : Args) (kwargs : Kwargs)
    (hp : parseJson s = some (.arr [.str m, .obj meta, .arr args, .obj kwargs]))
    (hm : method_ok m = true) (hr : request_id_ok meta = true) :
    decode_message s = .ok (m, meta, args, kwargs) := by
  simp only [decode_message, hp]
  exact frame_decode_ok m meta args kwargs hm hr

theorem decode_roundtrip_valid_frame_witness :
    decode_message "[\"chat.send\", \x7b\"request_id\": 1\x7d, [], \x7b\x7d]" =
      .ok ("chat.send", [("request_id", .num (.uint 1))], [], []) :=
  decode_roundtrip_valid_frame _ "chat.send" [("request_id", .num (.uint 1))] [] []
    rfl rfl rfl

/-- Claim C2: the Metadata Merger emits `extra`'s entries first in
their own order, then exactly those `base` entries whose keys do not
occur in `extra` in `base`'s own order; a `base` entry whose key occurs
in `extra` is never emitted at any position; and when `extra` is not
map-shaped the output is `base`'s entries unchanged. -/
theorem merge_order_precedence :
    (∀ (base : Meta) (extra : List (String × Json)),
        meta_with_extra base (.obj extra) =
          extra ++ base.filter (fun kv => !hasKey extra kv.1)) ∧
    (∀ (base : Meta) (extra : List (String × Json)) (kv : String × Json),
        kv ∈ meta_with_extra base (.obj extra) →
          kv ∈ extra ∨ (kv ∈ base ∧ hasKey extra kv.1 = false)) ∧
    (∀ (base : Meta) (j : Json), j.isObj = false → meta_with_extra base j = base) := by
  have h1 : ∀ (base : Meta) (extra : List (String × Json)),
      meta_with_extra base (.obj extra) =
        extra ++ base.filter (fun kv => !hasKey extra kv.1) := by
    intro base extra
    unfold meta_with_extra
    simp only [mapGet_isNone_eq]
  refine ⟨h1, ?_, ?_⟩
  · intro base extra kv hmem
    rw [h1] at hmem
    rcases List.mem_append.mp hmem with h | h
    · exact Or.inl h
    · rcases List.mem_filter.mp h with ⟨hb, hf⟩
      exact Or.inr ⟨hb, by simpa using hf⟩
  · intro base j hj
    rcases j with _ | b | nn | s | xs | ms <;>
      first
      | rfl
      | (exact absurd hj (by simp [Json.isObj]))

theorem merge_order_precedence_witness :
    meta_with_extra [("a", Json.null)] .null = [("a", Json.null)] :=
  merge_order_precedence.2.2 [("a", Json.null)] .null rfl

/-- Claim C3: `encode_call` produces the 3-element frame
`[merged_meta, args, kwargs]` where `merged_meta` is the Metadata
Merger applied with `extra = ("connection_id", cid)` over `base =
meta`; args and kwargs pass through unchanged; and the output is
unchanged by inserting any conflicting `connection_id` entry into
`meta`. The last conjunct replays the repository's `encode_call`
test frame. -/
theorem encode_call_spec :
    (∀ (meta : Meta) (cid : String) (args : Args) (kwargs : Kwargs),
        encode_call meta cid args kwargs =
          .arr [ .obj (meta_with_extra meta (.obj [("connection_id", .str cid)])),
                 .arr args, .obj kwargs ]) ∧
    (∀ (meta : Meta) (cid : String) (args : Args) (kwargs : Kwargs) (v : Json),
        encode_call (mapInsert meta "connection_id" v) cid args kwargs =
          encode_call meta cid args kwargs) ∧
    (encode_call [("request_id", .str "123")] "123" [.str "Hello", .str "World!"]
        [("room", .num (.uint 123))] =
      .arr [ .obj [("connection_id", .str "123"), ("request_id", .str "123")],
             .arr [.str "Hello", .str "World!"], .obj [("room", .num (.uint 123))] ]) := by
  refine ⟨fun _ _ _ _ => rfl, ?_, rfl⟩
  intro meta cid args kwargs v
  simp only [encode_call, meta_with_extra]
  rw [filter_mapInsert meta "connection_id" v _ (fun w => rfl)]

/-- Claim C4: `get_active` returns `some n` only when `meta["active"]`
is a number held in the unsigned 64-bit representation with value `n`;
a missing key, a string (including the empty one), either boolean, a
negative integer, and a float-typed number such as `123.0` all yield
`none`, while the integer `123` yields `some 123`. -/
theorem get_active_spec :
    (∀ (meta : Meta) (n : Nat), get_active meta = some n →
        n < 2 ^ 64 ∧ mapGet meta "active" = some (.num (.uint n))) ∧
    get_active [] = none ∧
    get_active [("active", .str "")] = none ∧
    get_active [("active", .bool true)] = none ∧
    get_active [("active", .bool false)] = none ∧
    get_active [("active", .num (.uint 123))] = some 123 ∧
    get_active [("active", .num (.int (-123)))] = none ∧
    get_active [("active", .num (.float 1230 (-1)))] = none := by
  refine ⟨?_, rfl, rfl, rfl, rfl, rfl, rfl, rfl⟩
  intro meta n h
  unfold get_active at h
  rcases hq : mapGet meta "active" with _ | j
  · rw [hq] at h; cases h
  · rw [hq] at h
    simp only [Option.some_bind] at h
    rcases j with _ | b | nn | s | xs | ms <;> simp only [Json.as_u64] at h <;>
      try cases h
    rcases nn with n' | i | ⟨mm, ee⟩ <;> simp only [JNum.as_u64] at h <;>
      try cases h
    split at h
    · rename_i hlt
      injection h with h'
      subst h'
      exact ⟨hlt, rfl⟩
    · cases h

theorem get_active_spec_witness :
    (123 : Nat) < 2 ^ 64 ∧
      mapGet [("active", Json.num (.uint 123))] "active" =
        some (.num (.uint 123)) :=
  get_active_spec.1 [("active", Json.num (.uint 123))] 123 rfl

/-- Claim C5: on a structurally well-formed frame, decoding reports
`invalidMethod` exactly when the method is empty, starts with the
literal `tangle.`, or contains a character outside `[A-Za-z0-9._-]`;
the six concrete methods of the repository's test are all rejected
that way, and the whitespace-padded ones fail the character class, not
the prefix test. -/
theorem invalid_method_exactly :
    (∀ (s m : String) (meta : Meta) (args : Args) (kwargs : Kwargs),
        parseJson s = some (.arr [.str m, .obj meta, .arr args, .obj kwargs]) →
        (decode_message s = .error .invalidMethod ↔ bad_method m = true)) ∧
    decode_message "[\"\", \x7b\"request_id\": 123\x7d, [], \x7b\x7d]" = .error .invalidMethod ∧
    decode_message "[\"bad/method\", \x7b\"request_id\": 123\x7d, [], \x7b\x7d]" = .error .invalidMethod ∧
    decode_message "[\"very bad method\", \x7b\"request_id\": 123\x7d, [], \x7b\x7d]" = .error .invalidMethod ∧
    decode_message "[\"tangle.auth\", \x7b\"request_id\": 123\x7d, [], \x7b\x7d]" = .error .invalidMethod ∧
    decode_message "[\"   tangle.auth\", \x7b\"request_id\": 123\x7d, [], \x7b\x7d]" = .error .invalidMethod ∧
    decode_message "[\"   bad.method   \", \x7b\"request_id\": 123\x7d, [], \x7b\x7d]" = .error .invalidMethod ∧
    starts_with "   tangle.auth" "tangle." = false ∧
    (("   tangle.auth").data.all fun c => method_char_class c.toNat) = false ∧
    starts_with "   bad.method   " "tangle." = false ∧
    (("   bad.method   ").data.all fun c => method_char_class c.toNat) = false := by
  refine ⟨?_, rfl, rfl, rfl, rfl, rfl, rfl, rfl, rfl, rfl, rfl⟩
  intro s m meta args kwargs hp
  simp only [decode_message, hp, decode_value_frame, validate_eq_spec, validate_spec]
  by_cases hb : bad_method m = true
  · simp [hb]
  · have hb' : bad_method m = false := by
      rcases h : bad_method m with _ | _
      · rfl
      · exact absurd h hb
    rcases hq : request_id_ok meta with _ | _ <;> simp [hb', hq]

theorem invalid_method_exactly_witness :
    decode_message "[\"tangle.auth\", \x7b\"request_id\": 1\x7d, [], \x7b\x7d]" =
        .error .invalidMethod ↔ bad_method "tangle.auth" = true :=
  invalid_method_exactly.1 _ "tangle.auth" [("request_id", .num (.uint 1))] [] [] rfl

/-- Claim C6: on a structurally well-formed frame whose method is
valid, decoding reports `invalidRequestId` exactly when
`meta["request_id"]` is absent or is neither a Number nor a non-empty
String; a missing key, null, a boolean, an array, an object, and the
empty string all produce it. -/
theorem invalid_request_id_exactly :
    (∀ (s m : String) (meta : Meta) (args : Args) (kwargs : Kwargs),
        parseJson s = some (.arr [.str m, .obj meta, .arr args, .obj kwargs]) →
        method_ok m = true →
        (decode_message s = .error .invalidRequestId ↔ request_id_ok meta = false)) ∧
    decode_message "[\"1\", \x7b\x7d, [], \x7b\x7d]" = .error .invalidRequestId ∧
    decode_message "[\"1\", \x7b\"request_id\": null\x7d, [], \x7b\x7d]" = .error .invalidRequestId ∧
    decode_message "[\"foo\", \x7b\"request_id\": true\x7d, [], \x7b\x7d]" = .error .invalidRequestId ∧
    decode_message "[\"foo\", \x7b\"request_id\": []\x7d, [], \x7b\x7d]" = .error .invalidRequestId ∧
    decode_message "[\"foo\", \x7b\"request_id\": \x7b\x7d\x7d, [], \x7b\x7d]" = .error .invalidRequestId ∧
    decode_message "[\"foo\", \x7b\"request_id\": \"\"\x7d, [], \x7b\x7d]" = .error .invalidRequestId := by
  refine ⟨?_, rfl, rfl, rfl, rfl, rfl, rfl⟩
  intro s m meta args kwargs hp hm
  have hb : bad_method m = false := by
    rw [method_ok_iff] at hm
    rcases h : bad_method m with _ | _
    · rfl
    · rw [h] at hm; exact absurd hm (by simp)
  simp only [decode_message, hp, decode_value_frame, validate_eq_spec, validate_spec]
  rcases hq : request_id_ok meta with _ | _ <;> simp [hb, hq]

theorem invalid_request_id_exactly_witness :
    decode_message "[\"foo\", \x7b\"request_id\": 0\x7d, [], \x7b\x7d]" =
        .error .invalidRequestId ↔
      request_id_ok [("request_id", Json.num (.uint 0))] = false :=
  invalid_request_id_exactly.1 _ "foo" [("request_id", .num (.uint 0))] [] [] rfl rfl

/-- Claim C7, counterexample: decoding the 5-element array
`[1, 2, 3, 4, 5]` does not produce an arity error reporting got 5 —
it fails on the first element's type, exactly as the repository's own
test expects ("invalid type: integer 1, expected a string"). -/
theorem arity_claim_counterexample :
    decode_message "[1, 2, 3, 4, 5]" = .error (.invalidElem 0 "a string") ∧
    ¬ decode_message "[1, 2, 3, 4, 5]" = .error (.invalidLength 5) := by
  refine ⟨rfl, fun h => ?_⟩
  have h' : (Except.error (DecodeError.invalidElem 0 "a string") :
      Except DecodeError (String × Meta × Args × Kwargs)) =
        .error (.invalidLength 5) := h
  injection h' with h''
  cases h''

/-- Claim C7, amended: an arity (invalid-length) error is reported
exactly for top-level arrays that end after fewer than 4 well-typed
elements, carrying the count read; `[]` reports got 0. A 5-element
array instead fails on its first offending element — `[1, 2, 3, 4, 5]`
with a type error at position 0, and a 5-element array whose first
four elements are well-typed with a trailing-characters error — so no
arity error ever reports a count of 4 or more. -/
theorem arity_error_amended :
    decode_message "[]" = .error (.invalidLength 0) ∧
    decode_message "[\"a\"]" = .error (.invalidLength 1) ∧
    decode_message "[\"a\", \x7b\x7d]" = .error (.invalidLength 2) ∧
    decode_message "[\"a\", \x7b\x7d, []]" = .error (.invalidLength 3) ∧
    decode_message "[1, 2, 3, 4, 5]" = .error (.invalidElem 0 "a string") ∧
    decode_message "[\"a\", \x7b\x7d, [], \x7b\x7d, 5]" = .error .trailingChars ∧
    (∀ (s : String) (n : Nat),
        decode_message s = .error (.invalidLength n) → n < 4) :=
  ⟨rfl, rfl, rfl, rfl, rfl, rfl, decode_message_invalidLength⟩

theorem arity_error_amended_witness : (0 : Nat) < 4 :=
  arity_error_amended.2.2.2.2.2.2 "[]" 0 rfl

/-- Claim C8: the method checks run before the request-id check, so on
any structurally well-formed frame with an invalid method the reported
error is `invalidMethod` whatever the request id is; in particular the
empty method with an absent `request_id` reports `invalidMethod`, not
`invalidRequestId`. -/
theorem method_checked_before_request_id :
    (∀ (s m : String) (meta : Meta) (args : Args) (kwargs : Kwargs),
        parseJson s = some (.arr [.str m, .obj meta, .arr args, .obj kwargs]) →
        bad_method m = true →
        decode_message s = .error .invalidMethod) ∧
    decode_message "[\"\", \x7b\x7d, [], \x7b\x7d]" = .error .invalidMethod := by
  refine ⟨?_, rfl⟩
  intro s m meta args kwargs hp hb
  simp only [decode_message, hp, decode_value_frame, validate_eq_spec, validate_spec]
  simp [hb]

theorem method_checked_before_request_id_witness :
    decode_message "[\"tangle.x\", \x7b\x7d, [], \x7b\x7d]" = .error .invalidMethod :=
  method_checked_before_request_id.1 _ "tangle.x" [] [] [] rfl rfl

/-- Claim C9: `decode_message` is a total function of the input text —
on every string, well-formed or adversarial, it returns either a
success tuple or a typed error. -/
theorem decode_total (s : String) :
    (∃ t, decode_message s = .ok t) ∨ (∃ e, decode_message s = .error e) := by
  cases h : decode_message s with
  | ok t => exact Or.inl ⟨t, rfl⟩
  | error e => exact Or.inr ⟨e, rfl⟩

/-- Claim C10: the reserved-namespace test matches only the exact
case-sensitive literal `tangle.`: with any valid request id, the
method `tangle` (no trailing dot) and the differently-cased
`Tangle.auth` are both accepted. -/
theorem reserved_prefix_exact (s : String) (meta : Meta) (args : Args) (kwargs : Kwargs)
    (hr : request_id_ok meta = true) :
    (parseJson s = some (.arr [.str "tangle", .obj meta, .arr args, .obj kwargs]) →
        decode_message s = .ok ("tangle", meta, args, kwargs)) ∧
    (parseJson s = some (.arr [.str "Tangle.auth", .obj meta, .arr args, .obj kwargs]) →
        decode_message s = .ok ("Tangle.auth", meta, args, kwargs)) := by
  constructor
  · intro hp
    simp only [decode_message, hp]
    exact frame_decode_ok _ _ _ _ rfl hr
  · intro hp
    simp only [decode_message, hp]
    exact frame_decode_ok _ _ _ _ rfl hr

theorem reserved_prefix_exact_witness :
    decode_message "[\"tangle\", \x7b\"request_id\": 123\x7d, [], \x7b\x7d]" =
      .ok ("tangle", [("request_id", Json.num (.uint 123))], [], []) :=
  (reserved_prefix_exact _ [("request_id", .num (.uint 123))] [] [] rfl).1 rfl

end Swindon
